import Mathlib

/-
  Verification development for the Xandeum pNode analytics backend.

  Shallow embedding of the discovery / dedup / caching / enrichment core:
  - discoverPNodesViaGossip, getAllPNodes, getPNodeByPubkey, getNodeStatsByPubkey
    from src/services/pnode.service.ts
  - getGeoSummary from the map service
  - the online-status derivation from the pRPC source verification script

  External effects (the pRPC client responses, the Redis-backed caches, the
  per-node fetch) are modelled as explicit inputs; the functions return the
  value the TypeScript code would return together with the cache writes it
  would perform.  JavaScript string truthiness is modelled by comparison with
  the empty string.
-/

/-- Raw gossip record (a pod) as delivered by the pRPC client.
The TypeScript type lives in the external xandeum-prpc package; the fields
are those the repository reads.  A missing pubkey is modelled as `""`. -/
structure Pod where
  pubkey : String
  address : Option String := none
  version : Option String := none
  lastSeenTimestamp : Option Int := none
deriving DecidableEq

/-- Normalized node record.  The TypeScript `PNode` type (src/types/pnode.ts is
not among the sources) is reconstructed from the README response shape and the
fields the service code reads: pubkey, status, address, ip, version, and the
optional RAM fields filled in by enrichment. -/
structure PNode where
  pubkey : String
  status : String
  address : Option String := none
  ip : Option String := none
  version : Option String := none
  ramUsed : Option Nat := none
  ramTotal : Option Nat := none
deriving DecidableEq

/-- Per-node runtime stats as returned by a direct `getStats` call
(README: cpu_percent, ram_used, ram_total, active_streams). -/
structure NodeStats where
  cpuPercent : Nat := 0
  ramUsed : Nat := 0
  ramTotal : Nat := 0
  activeStreams : Nat := 0
deriving DecidableEq

/-- One discovery round of external I/O, made explicit: the primary seed's
two listing calls, the fallback seeds' listing calls (in `SEED_IPS[1..]`
order), and the normalization function `normalizePNode` (src/utils/format.ts
is not among the sources, so normalization is kept abstract; a record it
rejects is an `error`). -/
structure GossipEnv where
  getPodsWithStats : Except Unit (List Pod)
  getPods : Except Unit (List Pod)
  fallbacks : List (Except Unit (List Pod))
  normalize : Pod → Except Unit PNode

/-- The per-record loop shared by the primary and fallback paths of
`discoverPNodesViaGossip`: normalize each pod inside its own try/catch
(a throwing record is skipped) and push the result only when its pubkey
is truthy. -/
def processPods (normalize : Pod → Except Unit PNode) : List Pod → List PNode
  | [] => []
  | pod :: rest =>
    match normalize pod with
    | Except.ok n =>
      if n.pubkey ≠ "" then n :: processPods normalize rest
      else processPods normalize rest
    | Except.error _ => processPods normalize rest

/-- Usable nodes produced by the primary seed: `getPodsWithStats()`, falling
back to `getPods()` on error; if both throw, the outer catch leaves the
accumulator empty. -/
def primaryUsable (env : GossipEnv) : List PNode :=
  match env.getPodsWithStats with
  | Except.ok pods => processPods env.normalize pods
  | Except.error _ =>
    match env.getPods with
    | Except.ok pods => processPods env.normalize pods
    | Except.error _ => []

/-- The fallback loop of `discoverPNodesViaGossip`: iterate the remaining
seed IPs while no nodes have been collected; a seed whose `getPods()` throws
is skipped, and the loop stops at the first seed yielding at least one
usable node. -/
def fallbackScan (normalize : Pod → Except Unit PNode) :
    List (Except Unit (List Pod)) → List PNode
  | [] => []
  | Except.error _ :: rest => fallbackScan normalize rest
  | Except.ok pods :: rest =>
    let nodes := processPods normalize pods
    if nodes.isEmpty then fallbackScan normalize rest else nodes

/-- Usable nodes the i-th entry of a fallback list would contribute (empty
when the seed throws, is absent, or every record is dropped). -/
def usableAt (normalize : Pod → Except Unit PNode)
    (fs : List (Except Unit (List Pod))) (i : Nat) : List PNode :=
  match fs.get? i with
  | some (Except.ok pods) => processPods normalize pods
  | _ => []

/-- Usable nodes the i-th fallback seed would contribute. -/
def fallbackUsable (env : GossipEnv) (i : Nat) : List PNode :=
  usableAt env.normalize env.fallbacks i

/-- `discoverPNodesViaGossip` (pnode.service.ts:12-68): return the primary
seed's usable nodes if there are any, otherwise the result of the fallback
loop.  The function itself never throws: every external call sits inside a
try/catch. -/
def discoverPNodesViaGossip (env : GossipEnv) : List PNode :=
  let nodes := primaryUsable env
  if nodes.isEmpty then fallbackScan env.normalize env.fallbacks else nodes

/-- The dedup loop of `getAllPNodes` (pnode.service.ts:88-100), with the set
of already-seen pubkeys made explicit: skip nodes with a falsy pubkey, keep
the first occurrence of every pubkey, preserve order. -/
def dedupGo (seen : List String) : List PNode → List PNode
  | [] => []
  | n :: rest =>
    if n.pubkey = "" then dedupGo seen rest
    else if n.pubkey ∈ seen then dedupGo seen rest
    else n :: dedupGo (n.pubkey :: seen) rest

/-- Deduplication by pubkey, first occurrence wins. -/
def dedupByPubkey (nodes : List PNode) : List PNode :=
  dedupGo [] nodes

/-- Modelled from the spec: `enrichNodesWithCachedStats`
(src/services/stats-enrichment.service.ts is not among the sources).  The
spec states the enrichment merge adds per-node resource stats (memory
used/total) from the per-node stats cache and never removes or overwrites
discovery-derived fields; identity and order are preserved.  The stats cache
is modelled as a partial map from pubkey to cached stats. -/
def enrichNodesWithCachedStats (statsCache : String → Option NodeStats)
    (nodes : List PNode) : List PNode :=
  nodes.map fun n =>
    match statsCache n.pubkey with
    | some s => { n with ramUsed := some s.ramUsed, ramTotal := some s.ramTotal }
    | none => n

/-- Value returned by `getAllPNodes` together with the node-set cache write
it performs (value and TTL in milliseconds), `none` when nothing is written. -/
structure GetAllResult where
  result : List PNode
  cacheWrite : Option (List PNode × Nat)
deriving DecidableEq

/-- `getAllPNodes` (pnode.service.ts:74-113).  `cached` is the current
node-set cache entry (`nodeCacheService.get`): on a hit the cached list is
enriched and returned; on a miss the service discovers, deduplicates by
pubkey, caches the deduplicated list with the 30s TTL, enriches and
returns. -/
def getAllPNodes (cached : Option (List PNode)) (env : GossipEnv)
    (statsCache : String → Option NodeStats) : GetAllResult :=
  match cached with
  | some c => { result := enrichNodesWithCachedStats statsCache c, cacheWrite := none }
  | none =>
    let nodes := discoverPNodesViaGossip env
    let uniqueNodes := dedupByPubkey nodes
    { result := enrichNodesWithCachedStats statsCache uniqueNodes,
      cacheWrite := some (uniqueNodes, 30000) }

/-- `getPNodeByPubkey` (pnode.service.ts:115-118): `find` over the full
listing, `undefined` collapsed to `null`. -/
def getPNodeByPubkey (cached : Option (List PNode)) (env : GossipEnv)
    (statsCache : String → Option NodeStats) (pubkey : String) : Option PNode :=
  (getAllPNodes cached env statsCache).result.find? fun n => n.pubkey == pubkey

/-- JavaScript `a || b` on two optional strings, where the empty string is
falsy (`const nodeAddress = node.address || node.ip`). -/
def truthyOr (a b : Option String) : Option String :=
  match a with
  | some s => if s = "" then (match b with
      | some t => if t = "" then none else some t
      | none => none)
    else some s
  | none =>
    match b with
    | some t => if t = "" then none else some t
    | none => none

/-- External state consulted by one `getNodeStatsByPubkey` call: the per-node
stats cache entry for this pubkey, the node-set cache entry and gossip round
that `getPNodeByPubkey` would use, the enrichment cache, and the outcome the
direct `nodeClient.getStats()` call would have (`error` models a throw,
`ok none` a falsy response). -/
structure StatsFetchEnv where
  cachedStats : Option NodeStats
  nodeSetCached : Option (List PNode)
  gossip : GossipEnv
  statsCache : String → Option NodeStats
  fetch : Except Unit (Option NodeStats)

/-- Value returned by `getNodeStatsByPubkey` together with whether a direct
per-node fetch was issued and the stats cache write performed (value and TTL
in milliseconds). -/
structure NodeStatsResult where
  result : Option NodeStats
  fetchAttempted : Bool
  cacheWrite : Option (NodeStats × Nat)
deriving DecidableEq

/-- `getNodeStatsByPubkey` (pnode.service.ts:125-174): cached stats are
returned first; otherwise the node is looked up via `getPNodeByPubkey`, and
a direct fetch happens only for a found, online node with a truthy address;
only a truthy fetch result is cached (120s TTL); a throwing fetch yields
`null` with no cache write. -/
def getNodeStatsByPubkey (env : StatsFetchEnv) (pubkey : String) : NodeStatsResult :=
  match env.cachedStats with
  | some c => { result := some c, fetchAttempted := false, cacheWrite := none }
  | none =>
    match getPNodeByPubkey env.nodeSetCached env.gossip env.statsCache pubkey with
    | none => { result := none, fetchAttempted := false, cacheWrite := none }
    | some node =>
      if node.status ≠ "online" then
        { result := none, fetchAttempted := false, cacheWrite := none }
      else
        match truthyOr node.address node.ip with
        | none => { result := none, fetchAttempted := false, cacheWrite := none }
        | some _ =>
          match env.fetch with
          | Except.error _ =>
            { result := none, fetchAttempted := true, cacheWrite := none }
          | Except.ok none =>
            { result := none, fetchAttempted := true, cacheWrite := none }
          | Except.ok (some s) =>
            { result := some s, fetchAttempted := true, cacheWrite := some (s, 120000) }

/-- Seconds elapsed since a last-seen timestamp, as computed by the source
verification script (scripts/verify-prpc-source.ts):
`Math.floor((now - lastSeen * 1000) / 1000)` with `now` in milliseconds and
the timestamp in seconds.  JavaScript `Math.floor` of a quotient is floor
division, `Int.fdiv`. -/
def secondsAgo (nowMs lastSeenTimestamp : Int) : Int :=
  (nowMs - lastSeenTimestamp * 1000).fdiv 1000

/-- Online-status derivation: `secondsAgo < threshold`.  The verification
script pins the comparison at `<` with the literal 300; the production
`normalizePNode` (src/utils/format.ts) is not among the sources, so the
threshold is kept as a parameter.  Modelled from the spec: the threshold is
the configurable `ONLINE_THRESHOLD_SECONDS`, default 300. -/
def statusIsOnline (nowMs lastSeenTimestamp onlineThresholdSeconds : Int) : Bool :=
  secondsAgo nowMs lastSeenTimestamp < onlineThresholdSeconds

/-- Node record used by the map service; geographic coordinates (floats) are
carried by the real `MapNode` but never read by the counting logic verified
here, so they are omitted. -/
structure MapNode where
  pubkey : String
  country : String
  region : String
  status : String
deriving DecidableEq

/-- One `countryMap.set(k, (countryMap.get(k) || 0) + 1)` step on a JavaScript
Map represented as an insertion-ordered association list: an existing key is
bumped in place, a new key is appended. -/
def bump : List (String × Nat) → String → List (String × Nat)
  | [], k => [(k, 1)]
  | (k0, c) :: rest, k =>
    if k0 = k then (k0, c + 1) :: rest else (k0, c) :: bump rest k

/-- Counting loop of `getGeoSummary`: fold the map nodes into an
insertion-ordered multiplicity table keyed by `key`. -/
def countBy (key : MapNode → String) (nodes : List MapNode) : List (String × Nat) :=
  nodes.foldl (fun m n => bump m (key n)) []

/-- Comparator used by `getGeoSummary`: `(a, b) => b.count - a.count`, i.e.
descending count. -/
def countGe (a b : String × Nat) : Prop :=
  b.2 ≤ a.2

instance : DecidableRel countGe :=
  fun a b => inferInstanceAs (Decidable (b.2 ≤ a.2))

instance : IsTotal (String × Nat) countGe :=
  ⟨fun a b => (le_total b.2 a.2).imp id id⟩

instance : IsTrans (String × Nat) countGe :=
  ⟨fun _ _ _ h1 h2 => le_trans h2 h1⟩

/-- Geographic summary: per-country and per-region count tables. -/
structure GeoSummary where
  countries : List (String × Nat)
  regions : List (String × Nat)
deriving DecidableEq

/-- `getGeoSummary` (map service): count map nodes by country and by region,
then sort each table by descending count.  JavaScript `Array.prototype.sort`
is a stable sort; it is modelled by insertion sort under the same
comparator. -/
def getGeoSummary (mapNodes : List MapNode) : GeoSummary :=
  { countries := List.insertionSort countGe (countBy (fun n => n.country) mapNodes),
    regions := List.insertionSort countGe (countBy (fun n => n.region) mapNodes) }

/-- Sample normalizer used for concrete evaluations: rejects a marker record
and otherwise produces an online node carrying the pod address. -/
def normalizeDemo (p : Pod) : Except Unit PNode :=
  if p.pubkey = "FAIL" then Except.error ()
  else Except.ok { pubkey := p.pubkey, status := "online", address := p.address }

/-- Two raw records sharing one identity with different addresses. -/
def podX1 : Pod :=
  { pubkey := "pkX", address := some ("1.1.1.1:7000") }

/-- Duplicate of `podX1`'s identity at another address. -/
def podX2 : Pod :=
  { pubkey := "pkX", address := some ("2.2.2.2:7000") }

/-- A record with a second, distinct identity. -/
def podY : Pod :=
  { pubkey := "pkY", address := some ("3.3.3.3:7000") }

/-- A record the sample normalizer rejects. -/
def podBad : Pod :=
  { pubkey := "FAIL" }

/-- Five records with distinct identities, served by a fallback seed. -/
def pods5 : List Pod :=
  [ { pubkey := "pk1", address := some ("10.0.0.1:7000") },
    { pubkey := "pk2", address := some ("10.0.0.2:7000") },
    { pubkey := "pk3", address := some ("10.0.0.3:7000") },
    { pubkey := "pk4", address := some ("10.0.0.4:7000") },
    { pubkey := "pk5", address := some ("10.0.0.5:7000") } ]

/-- Discovery round whose primary call returns a batch with a duplicated
identity. -/
def envDup : GossipEnv :=
  { getPodsWithStats := Except.ok [podX1, podX2],
    getPods := Except.error (),
    fallbacks := [],
    normalize := normalizeDemo }

/-- Discovery round whose primary call returns a three-record batch with two
distinct identities. -/
def envBatch : GossipEnv :=
  { getPodsWithStats := Except.ok [podX1, podX2, podY],
    getPods := Except.error (),
    fallbacks := [],
    normalize := normalizeDemo }

/-- Discovery round where the primary seed times out and the first fallback
seed returns five usable records. -/
def envFallback : GossipEnv :=
  { getPodsWithStats := Except.error (),
    getPods := Except.error (),
    fallbacks := [Except.ok pods5],
    normalize := normalizeDemo }

/-- Discovery round where the primary seed and every fallback seed fail or
return nothing usable. -/
def envAllFail : GossipEnv :=
  { getPodsWithStats := Except.error (),
    getPods := Except.error (),
    fallbacks := [Except.error (), Except.ok []],
    normalize := normalizeDemo }

/-- Discovery round with no reachable seed at all. -/
def envGossipEmpty : GossipEnv :=
  { getPodsWithStats := Except.error (),
    getPods := Except.error (),
    fallbacks := [],
    normalize := normalizeDemo }

/-- A node that is currently offline. -/
def offNode : PNode :=
  { pubkey := "pkOff", status := "offline", address := some ("9.9.9.9:7000") }

/-- A node that is currently online. -/
def onNode : PNode :=
  { pubkey := "pkOn", status := "online", address := some ("8.8.8.8:7000") }

/-- Sample per-node stats payload. -/
def stats0 : NodeStats :=
  { cpuPercent := 5, ramUsed := 100, ramTotal := 200, activeStreams := 1 }

/-- An enrichment cache with no entries. -/
def emptyStatsCache : String → Option NodeStats :=
  fun _ => none

/-- Stats-read state with a warm per-node stats cache entry while the node
set lists the node as offline. -/
def envStatsHit : StatsFetchEnv :=
  { cachedStats := some stats0,
    nodeSetCached := some [offNode],
    gossip := envGossipEmpty,
    statsCache := emptyStatsCache,
    fetch := Except.error () }

/-- Stats-read state with a cold stats cache and an offline node. -/
def envStatsMiss : StatsFetchEnv :=
  { cachedStats := none,
    nodeSetCached := some [offNode],
    gossip := envGossipEmpty,
    statsCache := emptyStatsCache,
    fetch := Except.error () }

/-- Stats-read state with a cold stats cache and an online node whose direct
fetch throws. -/
def envFetchFail : StatsFetchEnv :=
  { cachedStats := none,
    nodeSetCached := some [onNode],
    gossip := envGossipEmpty,
    statsCache := emptyStatsCache,
    fetch := Except.error () }

/-- Every node kept by the per-record loop has a truthy pubkey. -/
theorem processPods_pubkey_ne (f : Pod → Except Unit PNode) :
    ∀ (pods : List Pod) (n : PNode), n ∈ processPods f pods → n.pubkey ≠ "" := by
  intro pods
  induction pods with
  | nil => intro n h; simp [processPods] at h
  | cons pod rest ih =>
    intro n h
    simp only [processPods] at h
    split at h
    · split at h
      · rcases List.mem_cons.mp h with rfl | hmem
        · assumption
        · exact ih n hmem
      · exact ih n h
    · exact ih n h

/-- The per-record loop distributes over concatenation of batches. -/
theorem processPods_append (f : Pod → Except Unit PNode) (l1 l2 : List Pod) :
    processPods f (l1 ++ l2) = processPods f l1 ++ processPods f l2 := by
  induction l1 with
  | nil => simp [processPods]
  | cons pod rest ih =>
    simp only [List.cons_append, processPods]
    split
    · split
      · simp [ih]
      · exact ih
    · exact ih

/-- The dedup loop keeps a subsequence of its input. -/
theorem dedupGo_sublist : ∀ (seen : List String) (l : List PNode),
    (dedupGo seen l).Sublist l := by
  intro seen l
  induction l generalizing seen with
  | nil => simp [dedupGo]
  | cons a rest ih =>
    simp only [dedupGo]
    split
    · exact (ih seen).cons a
    · split
      · exact (ih seen).cons a
      · exact (ih (a.pubkey :: seen)).cons₂ a

/-- A node kept by the dedup loop has a pubkey outside the seen set. -/
theorem mem_dedupGo_not_seen : ∀ (seen : List String) (l : List PNode) (n : PNode),
    n ∈ dedupGo seen l → n.pubkey ∉ seen := by
  intro seen l
  induction l generalizing seen with
  | nil => intro n h; simp [dedupGo] at h
  | cons a rest ih =>
    intro n h
    simp only [dedupGo] at h
    split at h
    · exact ih seen n h
    · split at h
      · exact ih seen n h
      · rcases List.mem_cons.mp h with rfl | hmem
        · assumption
        · intro hc
          exact ih (a.pubkey :: seen) n hmem (List.mem_cons_of_mem _ hc)

/-- A node kept by the dedup loop has a truthy pubkey. -/
theorem mem_dedupGo_pubkey_ne : ∀ (seen : List String) (l : List PNode) (n : PNode),
    n ∈ dedupGo seen l → n.pubkey ≠ "" := by
  intro seen l
  induction l generalizing seen with
  | nil => intro n h; simp [dedupGo] at h
  | cons a rest ih =>
    intro n h
    simp only [dedupGo] at h
    split at h
    · exact ih seen n h
    · split at h
      · exact ih seen n h
      · rcases List.mem_cons.mp h with rfl | hmem
        · assumption
        · exact ih (a.pubkey :: seen) n hmem

/-- Every node kept by the dedup loop is the first node of the input carrying
its pubkey. -/
theorem dedupGo_find : ∀ (seen : List String) (l : List PNode) (n : PNode),
    n ∈ dedupGo seen l →
    l.find? (fun m => m.pubkey == n.pubkey) = some n := by
  intro seen l
  induction l generalizing seen with
  | nil => intro n h; simp [dedupGo] at h
  | cons a rest ih =>
    intro n h
    have hne : n.pubkey ≠ "" := mem_dedupGo_pubkey_ne seen (a :: rest) n h
    simp only [dedupGo] at h
    split at h
    · next ha =>
      have hfalse : (a.pubkey == n.pubkey) = false :=
        beq_eq_false_iff_ne.mpr (fun hc => hne (hc ▸ ha))
      simp only [List.find?_cons, hfalse]
      exact ih seen n h
    · split at h
      · next hseen =>
        have hnotseen : n.pubkey ∉ seen := mem_dedupGo_not_seen seen rest n h
        have hfalse : (a.pubkey == n.pubkey) = false :=
          beq_eq_false_iff_ne.mpr (fun hc => hnotseen (hc ▸ hseen))
        simp only [List.find?_cons, hfalse]
        exact ih seen n h
      · rcases List.mem_cons.mp h with rfl | hmem
        · simp [List.find?_cons]
        · have hnotseen : n.pubkey ∉ a.pubkey :: seen :=
            mem_dedupGo_not_seen (a.pubkey :: seen) rest n hmem
          have hane : a.pubkey ≠ n.pubkey :=
            fun hc => hnotseen (List.mem_cons.mpr (Or.inl hc.symm))
          have hfalse : (a.pubkey == n.pubkey) = false :=
            beq_eq_false_iff_ne.mpr hane
          simp only [List.find?_cons, hfalse]
          exact ih (a.pubkey :: seen) n hmem

/-- The pubkeys kept by the dedup loop are pairwise distinct. -/
theorem dedupGo_nodup : ∀ (seen : List String) (l : List PNode),
    ((dedupGo seen l).map (fun n => n.pubkey)).Nodup := by
  intro seen l
  induction l generalizing seen with
  | nil => simp [dedupGo]
  | cons a rest ih =>
    simp only [dedupGo]
    split
    · exact ih seen
    · split
      · exact ih seen
      · simp only [List.map_cons, List.nodup_cons]
        refine ⟨?_, ih (a.pubkey :: seen)⟩
        intro hmem
        rcases List.mem_map.mp hmem with ⟨m, hm, hpk⟩
        exact mem_dedupGo_not_seen _ _ m hm (hpk ▸ List.mem_cons_self _ _)

/-- Completeness of the dedup loop: every truthy pubkey of the input that is
not already seen survives into the output. -/
theorem dedupGo_complete : ∀ (seen : List String) (l : List PNode) (p : String),
    p ≠ "" → p ∉ seen → (∃ n ∈ l, n.pubkey = p) →
    ∃ m ∈ dedupGo seen l, m.pubkey = p := by
  intro seen l
  induction l generalizing seen with
  | nil => intro p _ _ h; simp at h
  | cons a rest ih =>
    intro p hp hseen ⟨n, hn, hpk⟩
    simp only [dedupGo]
    split
    · next ha =>
      rcases List.mem_cons.mp hn with rfl | hmem
      · exact absurd (hpk ▸ ha) hp
      · exact ih seen p hp hseen ⟨n, hmem, hpk⟩
    · split
      · next ha =>
        rcases List.mem_cons.mp hn with rfl | hmem
        · exact absurd (hpk ▸ ha) (hpk ▸ hseen)
        · exact ih seen p hp hseen ⟨n, hmem, hpk⟩
      · by_cases hap : a.pubkey = p
        · exact ⟨a, List.mem_cons_self _ _, hap⟩
        · rcases List.mem_cons.mp hn with rfl | hmem
          · exact absurd hpk hap
          · have hseen2 : p ∉ a.pubkey :: seen := by
              intro hc
              rcases List.mem_cons.mp hc with h1 | h2
              · exact hap h1.symm
              · exact hseen h2
            rcases ih (a.pubkey :: seen) p hp hseen2 ⟨n, hmem, hpk⟩ with ⟨m, hm, hmpk⟩
            exact ⟨m, List.mem_cons_of_mem _ hm, hmpk⟩

/-- Enrichment preserves the pubkey sequence. -/
theorem enrich_map_pubkey (statsCache : String → Option NodeStats) (l : List PNode) :
    (enrichNodesWithCachedStats statsCache l).map (fun n => n.pubkey)
      = l.map (fun n => n.pubkey) := by
  unfold enrichNodesWithCachedStats
  rw [List.map_map]
  apply List.map_congr_left
  intro n _
  cases h : statsCache n.pubkey <;> simp [h]

/-- When every input node has a truthy pubkey, the deduplicated list has
exactly one entry per distinct pubkey of the input. -/
theorem dedupByPubkey_length (l : List PNode) (h : ∀ n ∈ l, n.pubkey ≠ "") :
    (dedupByPubkey l).length = ((l.map (fun n => n.pubkey)).toFinset).card := by
  have hnodup : ((dedupByPubkey l).map (fun n => n.pubkey)).Nodup := dedupGo_nodup [] l
  have hsets : ((dedupByPubkey l).map (fun n => n.pubkey)).toFinset
      = (l.map (fun n => n.pubkey)).toFinset := by
    apply Finset.ext
    intro p
    simp only [List.mem_toFinset, List.mem_map]
    constructor
    · rintro ⟨n, hn, rfl⟩
      exact ⟨n, (dedupGo_sublist [] l).subset hn, rfl⟩
    · rintro ⟨n, hn, rfl⟩
      rcases dedupGo_complete [] l n.pubkey (h n hn) (by simp) ⟨n, hn, rfl⟩ with ⟨m, hm, hmp⟩
      exact ⟨m, hm, hmp⟩
  calc (dedupByPubkey l).length
      = ((dedupByPubkey l).map (fun n => n.pubkey)).length := (List.length_map _ _).symm
    _ = ((dedupByPubkey l).map (fun n => n.pubkey)).toFinset.card :=
        (List.toFinset_card_of_nodup hnodup).symm
    _ = ((l.map (fun n => n.pubkey)).toFinset).card := by rw [hsets]

/-- The fallback loop returns the usable nodes of the first entry that has
any, skipping earlier entries that fail or yield nothing. -/
theorem fallbackScan_first (normalize : Pod → Except Unit PNode) :
    ∀ (fs : List (Except Unit (List Pod))) (i : Nat),
    i < fs.length → usableAt normalize fs i ≠ [] →
    (∀ j, j < i → usableAt normalize fs j = []) →
    fallbackScan normalize fs = usableAt normalize fs i := by
  intro fs
  induction fs with
  | nil => intro i hi; simp at hi
  | cons f rest ih =>
    intro i hi hne hprev
    cases i with
    | zero =>
      cases f with
      | error e => exact absurd rfl hne
      | ok pods =>
        have hu : usableAt normalize (Except.ok pods :: rest) 0
            = processPods normalize pods := rfl
        rw [hu] at hne ⊢
        cases hl : processPods normalize pods with
        | nil => exact absurd hl hne
        | cons a t => simp [fallbackScan, hl]
    | succ j =>
      have hj : j < rest.length := Nat.lt_of_succ_lt_succ hi
      have hshift : ∀ k, k < j → usableAt normalize rest k = [] :=
        fun k hk => hprev (k + 1) (Nat.succ_lt_succ hk)
      cases f with
      | error e =>
        show fallbackScan normalize rest = usableAt normalize rest j
        exact ih j hj hne hshift
      | ok pods =>
        have hpe : processPods normalize pods = [] := hprev 0 (Nat.succ_pos j)
        show fallbackScan normalize (Except.ok pods :: rest) = usableAt normalize rest j
        simp only [fallbackScan, hpe, List.isEmpty_nil, if_true]
        exact ih j hj hne hshift

/-- The fallback loop yields nothing when every entry fails or yields
nothing. -/
theorem fallbackScan_all_empty (normalize : Pod → Except Unit PNode) :
    ∀ (fs : List (Except Unit (List Pod))),
    (∀ i, i < fs.length → usableAt normalize fs i = []) →
    fallbackScan normalize fs = [] := by
  intro fs
  induction fs with
  | nil => intro _; rfl
  | cons f rest ih =>
    intro hall
    have hshift : ∀ k, k < rest.length → usableAt normalize rest k = [] :=
      fun k hk => hall (k + 1) (Nat.succ_lt_succ hk)
    cases f with
    | error e => exact ih hshift
    | ok pods =>
      have hpe : processPods normalize pods = [] := hall 0 (Nat.succ_pos _)
      simp only [fallbackScan, hpe, List.isEmpty_nil, if_true]
      exact ih hshift

/-- `find?` returns the head of the suffix starting at the first satisfying
element. -/
theorem find_append_first (p : PNode → Bool) :
    ∀ (l1 l2 : List PNode) (node : PNode),
    p node = true → (∀ m ∈ l1, p m = false) →
    List.find? p (l1 ++ node :: l2) = some node := by
  intro l1
  induction l1 with
  | nil => intro l2 node hp _; simp [List.find?_cons, hp]
  | cons a rest ih =>
    intro l2 node hp hall
    have ha : p a = false := hall a (List.mem_cons_self _ _)
    simp only [List.cons_append, List.find?_cons, ha]
    exact ih l2 node hp (fun m hm => hall m (List.mem_cons_of_mem _ hm))

/-- One counting step adds exactly one to the total multiplicity. -/
theorem bump_sum (m : List (String × Nat)) (k : String) :
    ((bump m k).map (fun p => p.2)).sum = (m.map (fun p => p.2)).sum + 1 := by
  induction m with
  | nil => simp [bump]
  | cons a rest ih =>
    rcases a with ⟨k0, c⟩
    simp only [bump]
    split
    · simp only [List.map_cons, List.sum_cons]
      omega
    · simp only [List.map_cons, List.sum_cons, ih]
      omega

/-- The counting fold adds the number of processed nodes to the total
multiplicity of its accumulator. -/
theorem countBy_go_sum (key : MapNode → String) :
    ∀ (nodes : List MapNode) (m : List (String × Nat)),
    (((nodes.foldl (fun m n => bump m (key n)) m)).map (fun p => p.2)).sum
      = (m.map (fun p => p.2)).sum + nodes.length := by
  intro nodes
  induction nodes with
  | nil => intro m; simp
  | cons a rest ih =>
    intro m
    simp only [List.foldl_cons, List.length_cons]
    rw [ih (bump m (key a)), bump_sum]
    omega

/-- The multiplicity table of `getGeoSummary` conserves the node count. -/
theorem countBy_sum (key : MapNode → String) (nodes : List MapNode) :
    ((countBy key nodes).map (fun p => p.2)).sum = nodes.length := by
  unfold countBy
  rw [countBy_go_sum]
  simp

/-- C1 counterexample: `discoverPNodesViaGossip` does not deduplicate.  A
discovery batch of N = 2 raw records with K = 1 distinct identity yields a
result of length 2, not 1, and both entries carry the duplicated identity. -/
theorem discover_no_dedup_counterexample :
    (discoverPNodesViaGossip envDup).length = 2 ∧
    (((discoverPNodesViaGossip envDup).map (fun n => n.pubkey)).toFinset).card = 1 ∧
    (discoverPNodesViaGossip envDup).map (fun n => n.pubkey) = ["pkX", "pkX"] := by
  refine ⟨rfl, ?_, rfl⟩
  decide

/-- C1 (amended): `discoverPNodesViaGossip` returns every usable record of
the batch in input order, duplicates included; the reduction to exactly K
nodes — one per distinct identity, each the first occurrence of its identity,
in order of first appearance — is performed downstream by the dedup step of
`getAllPNodes` (`dedupByPubkey`). -/
theorem discover_then_dedup (env : GossipEnv) (pods : List Pod)
    (hp : env.getPodsWithStats = Except.ok pods)
    (hne : processPods env.normalize pods ≠ []) :
    discoverPNodesViaGossip env = processPods env.normalize pods ∧
    (dedupByPubkey (processPods env.normalize pods)).length
      = (((processPods env.normalize pods).map (fun n => n.pubkey)).toFinset).card ∧
    (dedupByPubkey (processPods env.normalize pods)).Sublist
      (processPods env.normalize pods) ∧
    ∀ n ∈ dedupByPubkey (processPods env.normalize pods),
      (processPods env.normalize pods).find? (fun m => m.pubkey == n.pubkey)
        = some n := by
  refine ⟨?_, ?_, dedupGo_sublist [] _, fun n hn => dedupGo_find [] _ n hn⟩
  · unfold discoverPNodesViaGossip primaryUsable
    rw [hp]
    simp [List.isEmpty_eq_false.mpr hne]
  · exact dedupByPubkey_length _ (processPods_pubkey_ne env.normalize pods)

/-- C1 witness: the amended statement evaluated on a concrete three-record
batch with one duplicated identity. -/
theorem discover_then_dedup_witness :
    discoverPNodesViaGossip envBatch = processPods envBatch.normalize [podX1, podX2, podY] ∧
    (dedupByPubkey (processPods envBatch.normalize [podX1, podX2, podY])).length
      = (((processPods envBatch.normalize [podX1, podX2, podY]).map
          (fun n => n.pubkey)).toFinset).card ∧
    (dedupByPubkey (processPods envBatch.normalize [podX1, podX2, podY])).Sublist
      (processPods envBatch.normalize [podX1, podX2, podY]) ∧
    ∀ n ∈ dedupByPubkey (processPods envBatch.normalize [podX1, podX2, podY]),
      (processPods envBatch.normalize [podX1, podX2, podY]).find?
        (fun m => m.pubkey == n.pubkey) = some n :=
  discover_then_dedup envBatch [podX1, podX2, podY] rfl (by decide)

/-- C2: on the cache-miss path, `getAllPNodes` caches (with the 30s TTL) and
returns a list with pairwise-distinct pubkeys: nodes without a pubkey are
skipped, only the first occurrence of each pubkey in discovery order is kept,
and the order of first appearance is preserved. -/
theorem getAllPNodes_miss_dedupes (env : GossipEnv)
    (statsCache : String → Option NodeStats) :
    ∃ w : List PNode,
      (getAllPNodes none env statsCache).cacheWrite = some (w, 30000) ∧
      (getAllPNodes none env statsCache).result
        = enrichNodesWithCachedStats statsCache w ∧
      (w.map (fun n => n.pubkey)).Nodup ∧
      ((getAllPNodes none env statsCache).result.map (fun n => n.pubkey)).Nodup ∧
      w.Sublist (discoverPNodesViaGossip env) ∧
      ∀ n ∈ w, n.pubkey ≠ "" ∧
        (discoverPNodesViaGossip env).find? (fun m => m.pubkey == n.pubkey)
          = some n := by
  refine ⟨dedupByPubkey (discoverPNodesViaGossip env), rfl, rfl, ?_, ?_, ?_, ?_⟩
  · exact dedupGo_nodup [] _
  · show ((enrichNodesWithCachedStats statsCache
      (dedupByPubkey (discoverPNodesViaGossip env))).map (fun n => n.pubkey)).Nodup
    rw [enrich_map_pubkey]
    exact dedupGo_nodup [] _
  · exact dedupGo_sublist [] _
  · intro n hn
    exact ⟨mem_dedupGo_pubkey_ne [] _ n hn, dedupGo_find [] _ n hn⟩

/-- C3: when the primary endpoint yields zero usable nodes, discovery walks
the fallback endpoints in configured order and returns the usable nodes of
the first fallback endpoint yielding at least one, skipping every earlier
fallback that fails or yields nothing. -/
theorem discover_fallback_first (env : GossipEnv) (i : Nat)
    (hprim : primaryUsable env = [])
    (hi : i < env.fallbacks.length)
    (hne : fallbackUsable env i ≠ [])
    (hprev : ∀ j, j < i → fallbackUsable env j = []) :
    discoverPNodesViaGossip env = fallbackUsable env i := by
  unfold discoverPNodesViaGossip
  rw [hprim]
  simp only [List.isEmpty_nil, if_true]
  exact fallbackScan_first env.normalize env.fallbacks i hi hne hprev

/-- C3 witness: the primary seed times out and the first fallback seed
returns five usable nodes; discovery returns exactly those five. -/
theorem discover_fallback_first_witness :
    discoverPNodesViaGossip envFallback = fallbackUsable envFallback 0 ∧
    (fallbackUsable envFallback 0).length = 5 :=
  ⟨discover_fallback_first envFallback 0 rfl (by decide) (by decide)
      (fun j hj => absurd hj (Nat.not_lt_zero j)),
    by decide⟩

/-- C4: total discovery failure — the primary endpoint and every fallback
endpoint fail or yield zero usable records — produces the empty list rather
than an error, and the failure of one record's normalization removes only
that record from the processed batch. -/
theorem discover_failure_semantics :
    (∀ env : GossipEnv,
      primaryUsable env = [] →
      (∀ i, i < env.fallbacks.length → fallbackUsable env i = []) →
      discoverPNodesViaGossip env = []) ∧
    (∀ (normalize : Pod → Except Unit PNode) (l1 l2 : List Pod) (bad : Pod),
      normalize bad = Except.error () →
      processPods normalize (l1 ++ bad :: l2) = processPods normalize (l1 ++ l2)) := by
  constructor
  · intro env hprim hall
    unfold discoverPNodesViaGossip
    rw [hprim]
    simp only [List.isEmpty_nil, if_true]
    exact fallbackScan_all_empty env.normalize env.fallbacks hall
  · intro normalize l1 l2 bad hbad
    rw [processPods_append, processPods_append]
    have hb : processPods normalize (bad :: l2) = processPods normalize l2 := by
      simp only [processPods, hbad]
    rw [hb]

/-- C4 witness: a round where the primary and both fallback seeds are
exhausted returns the empty list, and a concrete failing record is dropped
without disturbing its neighbors. -/
theorem discover_failure_semantics_witness :
    discoverPNodesViaGossip envAllFail = [] ∧
    processPods normalizeDemo ([podX1] ++ podBad :: [podY])
      = processPods normalizeDemo ([podX1] ++ [podY]) :=
  ⟨discover_failure_semantics.1 envAllFail rfl (by decide),
    discover_failure_semantics.2 normalizeDemo [podX1] [podY] podBad rfl⟩

/-- C5 counterexample: the per-node stats cache is consulted before the node
lookup, so for a pubkey whose node is listed as offline but whose stats cache
entry is still warm, `getNodeStatsByPubkey` returns the cached stats rather
than null. -/
theorem nodeStats_offline_cached_counterexample :
    getPNodeByPubkey envStatsHit.nodeSetCached envStatsHit.gossip
      envStatsHit.statsCache ("pkOff") = some offNode ∧
    offNode.status ≠ "online" ∧
    (getNodeStatsByPubkey envStatsHit ("pkOff")).result = some stats0 := by
  refine ⟨rfl, by decide, rfl⟩

/-- C5 (amended): provided the per-node stats cache holds no entry for the
pubkey, a node found by the lookup with status other than online makes
`getNodeStatsByPubkey` return null with no per-node fetch issued and no
cache write. -/
theorem nodeStats_offline_no_fetch (env : StatsFetchEnv) (pubkey : String)
    (node : PNode)
    (hcache : env.cachedStats = none)
    (hfind : getPNodeByPubkey env.nodeSetCached env.gossip env.statsCache pubkey
      = some node)
    (hoff : node.status ≠ "online") :
    getNodeStatsByPubkey env pubkey
      = { result := none, fetchAttempted := false, cacheWrite := none } := by
  unfold getNodeStatsByPubkey
  rw [hcache, hfind]
  simp only [if_pos hoff]

/-- C5 witness: the amended statement evaluated with a cold stats cache and
an offline node. -/
theorem nodeStats_offline_no_fetch_witness :
    getNodeStatsByPubkey envStatsMiss ("pkOff")
      = { result := none, fetchAttempted := false, cacheWrite := none } :=
  nodeStats_offline_no_fetch envStatsMiss ("pkOff") offNode rfl rfl (by decide)

/-- C6: the derived status is online exactly when the elapsed time is
strictly below the threshold: with timestamps in seconds and now in
milliseconds, `statusIsOnline` holds iff `nowMs - lastSeen * 1000` is below
`threshold * 1000`; at the default threshold 300 a node last observed 299
seconds ago is online and one last observed 301 seconds ago is offline, and
the derivation is a pure function of its inputs. -/
theorem status_online_boundary :
    (∀ nowMs lastSeen threshold : Int,
      statusIsOnline nowMs lastSeen threshold = true ↔
        nowMs - lastSeen * 1000 < threshold * 1000) ∧
    (∀ lastSeen : Int,
      statusIsOnline ((lastSeen + 299) * 1000) lastSeen 300 = true) ∧
    (∀ lastSeen : Int,
      statusIsOnline ((lastSeen + 301) * 1000) lastSeen 300 = false) ∧
    (∀ nowMs lastSeen threshold : Int,
      statusIsOnline nowMs lastSeen threshold
        = statusIsOnline nowMs lastSeen threshold) := by
  have hkey : ∀ nowMs lastSeen threshold : Int,
      statusIsOnline nowMs lastSeen threshold = true ↔
        nowMs - lastSeen * 1000 < threshold * 1000 := by
    intro nowMs lastSeen threshold
    simp only [statusIsOnline, secondsAgo, decide_eq_true_eq]
    rw [Int.fdiv_eq_ediv _ (by norm_num)]
    omega
  refine ⟨hkey, ?_, ?_, fun _ _ _ => rfl⟩
  · intro lastSeen
    rw [hkey]
    omega
  · intro lastSeen
    rw [Bool.eq_false_iff]
    intro hc
    have := (hkey _ _ _).mp hc
    omega

/-- C7: both return paths of `getAllPNodes` pass the node list through the
enrichment merge: a cache hit returns the enriched cached list, a cache miss
returns the enriched deduplicated discovery result, and in general the
result is always the enrichment of some base list. -/
theorem getAllPNodes_always_enriched (env : GossipEnv)
    (statsCache : String → Option NodeStats) :
    (∀ c, (getAllPNodes (some c) env statsCache).result
      = enrichNodesWithCachedStats statsCache c) ∧
    (getAllPNodes none env statsCache).result
      = enrichNodesWithCachedStats statsCache
          (dedupByPubkey (discoverPNodesViaGossip env)) ∧
    ∀ cached, ∃ base, (getAllPNodes cached env statsCache).result
      = enrichNodesWithCachedStats statsCache base :=
  ⟨fun _ => rfl, rfl, fun cached =>
    match cached with
    | some c => ⟨c, rfl⟩
    | none => ⟨dedupByPubkey (discoverPNodesViaGossip env), rfl⟩⟩

/-- C8: a stats cache write happens only for a successful truthy fetch, and
then it stores exactly the fetched stats under the 120s TTL; when the
per-node fetch throws, a call that reached the fetch returns null and writes
nothing. -/
theorem nodeStats_cache_write_success_only (env : StatsFetchEnv)
    (pubkey : String) :
    (∀ w : NodeStats × Nat,
      (getNodeStatsByPubkey env pubkey).cacheWrite = some w →
        env.fetch = Except.ok (some w.1) ∧ w.2 = 120000 ∧
        (getNodeStatsByPubkey env pubkey).result = some w.1 ∧
        (getNodeStatsByPubkey env pubkey).fetchAttempted = true) ∧
    (env.fetch = Except.error () →
      (getNodeStatsByPubkey env pubkey).cacheWrite = none ∧
      ((getNodeStatsByPubkey env pubkey).fetchAttempted = true →
        (getNodeStatsByPubkey env pubkey).result = none)) := by
  rcases hc : env.cachedStats with _ | c
  · rcases hfind : getPNodeByPubkey env.nodeSetCached env.gossip env.statsCache pubkey with _ | node
    · have heval : getNodeStatsByPubkey env pubkey
          = { result := none, fetchAttempted := false, cacheWrite := none } := by
        simp [getNodeStatsByPubkey, hc, hfind]
      constructor
      · intro w hw
        rw [heval] at hw
        simp at hw
      · intro _
        exact ⟨by simp [heval], fun hatt => by rw [heval] at hatt; simp at hatt⟩
    · by_cases hs : node.status = "online"
      · rcases hadr : truthyOr node.address node.ip with _ | addr
        · have heval : getNodeStatsByPubkey env pubkey
              = { result := none, fetchAttempted := false, cacheWrite := none } := by
            simp [getNodeStatsByPubkey, hc, hfind, hs, hadr]
          constructor
          · intro w hw
            rw [heval] at hw
            simp at hw
          · intro _
            exact ⟨by simp [heval], fun hatt => by rw [heval] at hatt; simp at hatt⟩
        · rcases hf : env.fetch with e | os
          · cases e
            have heval : getNodeStatsByPubkey env pubkey
                = { result := none, fetchAttempted := true, cacheWrite := none } := by
              simp [getNodeStatsByPubkey, hc, hfind, hs, hadr, hf]
            constructor
            · intro w hw
              rw [heval] at hw
              simp at hw
            · intro _
              exact ⟨by simp [heval], fun _ => by simp [heval]⟩
          · rcases os with _ | s
            · have heval : getNodeStatsByPubkey env pubkey
                  = { result := none, fetchAttempted := true, cacheWrite := none } := by
                simp [getNodeStatsByPubkey, hc, hfind, hs, hadr, hf]
              constructor
              · intro w hw
                rw [heval] at hw
                simp at hw
              · intro hfe
                cases hfe
            · have heval : getNodeStatsByPubkey env pubkey
                  = { result := some s, fetchAttempted := true,
                      cacheWrite := some (s, 120000) } := by
                simp [getNodeStatsByPubkey, hc, hfind, hs, hadr, hf]
              constructor
              · intro w hw
                rw [heval] at hw
                simp only [Option.some.injEq] at hw
                subst hw
                exact ⟨rfl, rfl, by simp [heval], by simp [heval]⟩
              · intro hfe
                cases hfe
      · have heval : getNodeStatsByPubkey env pubkey
            = { result := none, fetchAttempted := false, cacheWrite := none } := by
          simp [getNodeStatsByPubkey, hc, hfind, hs]
        constructor
        · intro w hw
          rw [heval] at hw
          simp at hw
        · intro _
          exact ⟨by simp [heval], fun hatt => by rw [heval] at hatt; simp at hatt⟩
  · have heval : getNodeStatsByPubkey env pubkey
        = { result := some c, fetchAttempted := false, cacheWrite := none } := by
      simp [getNodeStatsByPubkey, hc]
    constructor
    · intro w hw
      rw [heval] at hw
      simp at hw
    · intro _
      exact ⟨by simp [heval], fun hatt => by rw [heval] at hatt; simp at hatt⟩

/-- C8 witness: with a cold cache, an online node with a truthy address, and
a fetch that throws, the call returns null and leaves the stats cache
unchanged. -/
theorem nodeStats_cache_write_success_only_witness :
    (getNodeStatsByPubkey envFetchFail ("pkOn")).cacheWrite = none ∧
    ((getNodeStatsByPubkey envFetchFail ("pkOn")).fetchAttempted = true →
      (getNodeStatsByPubkey envFetchFail ("pkOn")).result = none) :=
  (nodeStats_cache_write_success_only envFetchFail ("pkOn")).2 rfl

/-- C9: `getPNodeByPubkey` is a pure lookup over the `getAllPNodes` listing:
it returns null when no listed node carries the pubkey, and otherwise the
first listed node carrying it; it consults no other state, so the result is
always consistent with the bulk listing, and it is total. -/
theorem getPNodeByPubkey_first_match (cached : Option (List PNode))
    (env : GossipEnv) (statsCache : String → Option NodeStats)
    (pubkey : String) :
    ((∀ n ∈ (getAllPNodes cached env statsCache).result, n.pubkey ≠ pubkey) →
      getPNodeByPubkey cached env statsCache pubkey = none) ∧
    (∀ (l1 l2 : List PNode) (node : PNode),
      (getAllPNodes cached env statsCache).result = l1 ++ node :: l2 →
      node.pubkey = pubkey →
      (∀ m ∈ l1, m.pubkey ≠ pubkey) →
      getPNodeByPubkey cached env statsCache pubkey = some node) := by
  constructor
  · intro h
    unfold getPNodeByPubkey
    rw [List.find?_eq_none]
    intro n hn
    simp only [beq_iff_eq]
    exact h n hn
  · intro l1 l2 node hsplit hpk hfirst
    unfold getPNodeByPubkey
    rw [hsplit]
    apply find_append_first
    · simp [hpk]
    · intro m hm
      simp only [beq_eq_false_iff_ne]
      exact hfirst m hm

/-- C9 witness: a two-node cached listing where the second node carries the
looked-up pubkey. -/
theorem getPNodeByPubkey_first_match_witness :
    getPNodeByPubkey (some [offNode, onNode]) envGossipEmpty emptyStatsCache
      ("pkOn") = some onNode :=
  (getPNodeByPubkey_first_match (some [offNode, onNode]) envGossipEmpty
      emptyStatsCache ("pkOn")).2 [offNode] [] onNode rfl rfl (by decide)

/-- C10: the geographic summary conserves counts — the per-country counts
and the per-region counts each sum to the number of map nodes — and both
tables are sorted in non-increasing order of count. -/
theorem getGeoSummary_conserves_counts (mapNodes : List MapNode) :
    ((getGeoSummary mapNodes).countries.map (fun p => p.2)).sum
      = mapNodes.length ∧
    ((getGeoSummary mapNodes).regions.map (fun p => p.2)).sum
      = mapNodes.length ∧
    List.Sorted countGe (getGeoSummary mapNodes).countries ∧
    List.Sorted countGe (getGeoSummary mapNodes).regions := by
  refine ⟨?_, ?_, ?_, ?_⟩
  · have hperm := List.perm_insertionSort countGe
      (countBy (fun n => n.country) mapNodes)
    show ((List.insertionSort countGe
      (countBy (fun n => n.country) mapNodes)).map (fun p => p.2)).sum = _
    rw [(hperm.map (fun p => p.2)).sum_eq]
    exact countBy_sum _ mapNodes
  · have hperm := List.perm_insertionSort countGe
      (countBy (fun n => n.region) mapNodes)
    show ((List.insertionSort countGe
      (countBy (fun n => n.region) mapNodes)).map (fun p => p.2)).sum = _
    rw [(hperm.map (fun p => p.2)).sum_eq]
    exact countBy_sum _ mapNodes
  · exact List.sorted_insertionSort countGe _
  · exact List.sorted_insertionSort countGe _
